import Mathlib

/-!
Verification of the timeout-aware lazy connection pool in
`automation/utils.py` (`SimpleConnectionPool`).

The pool keeps a FIFO queue of wrappers.  A wrapper is the Python dict
`{'conn': c}` optionally carrying a `'last_acquired'` timestamp, modelled
here as an `Option ℚ` field (the key is absent on a freshly created
wrapper and present once the wrapper has been released).  Time values
(`time.time()` floats) are modelled as rationals.

`acquire` is a context manager; we model one full scoped acquisition
(`withAcquired`): the withdrawal loop, the creation fallback, the
caller's block, and the `finally` bookkeeping that stamps the wrapper
with the time captured at the start of the call and pushes it to the
back of the queue.  Python's `queue.Queue` is FIFO: `get_nowait` takes
the front, `put_nowait` appends at the back; the model uses a list whose
head is the front of the queue.

The abstract factory `create` is modelled as a caller-supplied function
receiving the number of creations performed so far (so that distinct
invocations can yield distinct resources) and returning either a
resource or an error (a raised exception).  A ghost counter
`createCount` counts `create()` invocations, as §8 of the spec asks.
-/

/-- The Python wrapper dict: `conn` plus the optional `last_acquired`
timestamp (absent until the wrapper is first released). -/
structure Wrapper (α : Type) where
  conn : α
  last_acquired : Option ℚ
  deriving DecidableEq

/-- The pool configuration: the idle `timeout` (seconds) and the
caller-supplied factory `create`.  `create` receives the invocation
index and returns a new resource, or an error when construction raises. -/
structure SimpleConnectionPool (α : Type) where
  timeout : ℚ
  create : Nat → Except String α

/-- The pool's mutable state: the FIFO queue of idle wrappers (head =
front of the queue = oldest insertion) and the ghost count of `create()`
invocations. -/
structure PoolState (α : Type) where
  queue : List (Wrapper α)
  createCount : Nat
  deriving DecidableEq

/-- Outcome of the withdrawal loop (`while True: wrapper = self.queue.get_nowait() ...`):
either a fresh wrapper was found (with the remaining queue), or the
withdrawn wrapper had no `'last_acquired'` key and the lookup raised
`KeyError`, or the queue ran empty (`Empty` was raised). -/
inductive GetResult (α : Type) where
  | found (w : Wrapper α) (rest : List (Wrapper α))
  | keyError (rest : List (Wrapper α))
  | empty
  deriving DecidableEq

/-- The withdrawal loop of `acquire`: repeatedly `get_nowait` from the
front; stop on the first wrapper with `last_acquired + timeout > now`;
silently drop stale wrappers and continue; fall through on `Empty`. -/
def acquireLoop (timeout now : ℚ) : List (Wrapper α) → GetResult α
  | [] => .empty
  | w :: rest =>
    match w.last_acquired with
    | none => .keyError rest
    | some t => if t + timeout > now then .found w rest else acquireLoop timeout now rest

/-- Outcome of the pre-`yield` part of `acquire`: a wrapper to hand to
the caller together with the updated pool state, or a propagated error. -/
inductive AcquireStart (α : Type) where
  | ok (w : Wrapper α) (st : PoolState α)
  | keyError (st : PoolState α)
  | createError (msg : String) (st : PoolState α)
  deriving DecidableEq

/-- The pre-`yield` part of `acquire`: run the withdrawal loop; on
`Empty`, call `create()` and wrap the result as `{'conn': c}` (no
`'last_acquired'` key).  A raised `KeyError` or creation error
propagates; the ghost counter increments on each `create()` invocation. -/
def acquireWrapper (p : SimpleConnectionPool α) (now : ℚ) (st : PoolState α) :
    AcquireStart α :=
  match acquireLoop p.timeout now st.queue with
  | .found w rest => .ok w ⟨rest, st.createCount⟩
  | .keyError rest => .keyError ⟨rest, st.createCount⟩
  | .empty =>
    match p.create st.createCount with
    | .ok c => .ok ⟨c, none⟩ ⟨[], st.createCount + 1⟩
    | .error msg => .createError msg ⟨[], st.createCount + 1⟩

/-- An error surfacing from a scoped acquisition: the `KeyError` from
the staleness lookup, a creation failure, or an exception raised by the
caller's own block. -/
inductive AcquireError (ε : Type) where
  | keyError
  | createError (msg : String)
  | blockError (e : ε)
  deriving DecidableEq

/-- One full scoped acquisition (`with pool.acquire() as conn: block`):
capture `now`, obtain a wrapper, run the caller's block on its `conn`,
and in `finally` stamp `wrapper['last_acquired'] = now` and
`put_nowait` the wrapper to the back of the queue.  The block's result
or exception is returned alongside the pool state after the
bookkeeping; pre-`yield` errors propagate without any push. -/
def withAcquired (p : SimpleConnectionPool α) (now : ℚ) (st : PoolState α)
    (block : α → Except ε β) : Except (AcquireError ε) β × PoolState α :=
  match acquireWrapper p now st with
  | .keyError st1 => (.error .keyError, st1)
  | .createError msg st1 => (.error (.createError msg), st1)
  | .ok w st1 =>
    let st2 : PoolState α := ⟨st1.queue ++ [⟨w.conn, some now⟩], st1.createCount⟩
    match block w.conn with
    | .ok b => (.ok b, st2)
    | .error e => (.error (.blockError e), st2)

/-- A block that uses the connection and succeeds (returns it). -/
def okBlock (α : Type) : α → Except Unit α := fun c => .ok c

/-- A block that raises. -/
def failBlock (α : Type) : α → Except Unit α := fun _ => .error ()

/-- A sequence of sequential acquire/release pairs at the given times. -/
def runAcquires (p : SimpleConnectionPool α) (times : List ℚ) (st : PoolState α) :
    PoolState α :=
  times.foldl (fun s t => (withAcquired p t s (okBlock α)).2) st

/-- A concrete pool over `Nat` resources whose factory never fails and
returns the invocation index as the new resource. -/
def natPool (timeout : ℚ) : SimpleConnectionPool Nat := ⟨timeout, fun k => .ok k⟩

/-- A concrete pool whose factory always raises. -/
def failPool (timeout : ℚ) : SimpleConnectionPool Nat :=
  ⟨timeout, fun _ => .error "boom"⟩

/-- The factory of a non-specialized pool as the code actually behaves:
`SimpleConnectionPool` has no ABC metaclass, so `abstractmethod` is not
enforced and calling `create()` executes the body `pass`, returning
`None` — modelled as succeeding with `none`. -/
def baseCreate : Nat → Except String (Option Nat) := fun _ => .ok none

/-- A directly instantiated, non-specialized `SimpleConnectionPool`. -/
def basePool (timeout : ℚ) : SimpleConnectionPool (Option Nat) := ⟨timeout, baseCreate⟩

/-- Every wrapper in the queue carries a `'last_acquired'` timestamp. -/
def allStamped (q : List (Wrapper α)) : Prop := ∀ w ∈ q, w.last_acquired ≠ none

instance (q : List (Wrapper α)) [DecidableEq α] : Decidable (allStamped q) := by
  unfold allStamped; infer_instance

/-! ## Helper lemmas -/

/-- If the withdrawal loop finds a fresh wrapper `w` leaving `rest`, then
`w :: rest` is a suffix of the original queue: the loop only drops a
prefix of stale wrappers. -/
theorem acquireLoop_found_suffix {α : Type} (timeout now : ℚ) :
    ∀ (q rest : List (Wrapper α)) (w : Wrapper α),
      acquireLoop timeout now q = .found w rest → w :: rest <:+ q := by
  intro q
  induction q with
  | nil => intro rest w h; simp [acquireLoop] at h
  | cons x xs ih =>
    intro rest w h
    unfold acquireLoop at h
    cases hx : x.last_acquired with
    | none => rw [hx] at h; exact GetResult.noConfusion h
    | some t =>
      rw [hx] at h
      have h' : (if t + timeout > now then GetResult.found x xs
          else acquireLoop timeout now xs) = .found w rest := h
      by_cases hc : t + timeout > now
      · rw [if_pos hc] at h'
        obtain ⟨rfl, rfl⟩ := GetResult.found.inj h'
        exact List.suffix_refl _
      · rw [if_neg hc] at h'
        exact (ih rest w h').trans (List.suffix_cons x xs)

/-- A suffix of a fully stamped queue is fully stamped. -/
theorem allStamped_suffix {α : Type} {q r : List (Wrapper α)}
    (h : r <:+ q) (hs : allStamped q) : allStamped r :=
  fun w hw => hs w (h.sublist.subset hw)

/-- On a fully stamped queue the withdrawal loop never raises `KeyError`. -/
theorem acquireLoop_no_keyError {α : Type} (timeout now : ℚ) :
    ∀ q : List (Wrapper α), allStamped q →
      ∀ rest, acquireLoop timeout now q ≠ .keyError rest := by
  intro q
  induction q with
  | nil => intro _ rest h; simp [acquireLoop] at h
  | cons x xs ih =>
    intro hs rest h
    have hx : x.last_acquired ≠ none := hs x (List.mem_cons_self x xs)
    unfold acquireLoop at h
    cases hxa : x.last_acquired with
    | none => exact hx hxa
    | some t =>
      rw [hxa] at h
      have h' : (if t + timeout > now then GetResult.found x xs
          else acquireLoop timeout now xs) = .keyError rest := h
      by_cases hc : t + timeout > now
      · rw [if_pos hc] at h'; exact GetResult.noConfusion h'
      · rw [if_neg hc] at h'
        exact ih (fun w hw => hs w (List.mem_cons_of_mem x hw)) rest h'

/-! ## Claims -/

/-- C1: whenever `acquire` hands a wrapper to the caller's block, the
state after the scoped block exits — by normal completion or by an
exception raised in the block — has that wrapper stamped with
`last_acquired = now` (the time captured at the start of `acquire`) and
pushed to the back of the idle queue; a block exception surfaces only as
the result component, after this bookkeeping, and a normal result is
returned unchanged. -/
theorem acquire_release_bookkeeping {α ε β : Type}
    (p : SimpleConnectionPool α) (now : ℚ) (st : PoolState α)
    (block : α → Except ε β) (w : Wrapper α) (st1 : PoolState α)
    (h : acquireWrapper p now st = .ok w st1) :
    (withAcquired p now st block).2 =
      ⟨st1.queue ++ [⟨w.conn, some now⟩], st1.createCount⟩ ∧
    (∀ e, block w.conn = .error e →
      (withAcquired p now st block).1 = .error (.blockError e)) ∧
    (∀ b, block w.conn = .ok b → (withAcquired p now st block).1 = .ok b) := by
  unfold withAcquired
  rw [h]
  cases hb : block w.conn <;> simp [hb]

/-- Witness for C1 at a concrete input: an empty pool at time `0` with a
block that raises; the wrapper is stamped and queued, and the block's
error surfaces. -/
theorem acquire_release_bookkeeping_witness :
    acquireWrapper (natPool 1) 0 ⟨[], 0⟩ = .ok ⟨0, none⟩ ⟨[], 1⟩ ∧
    (withAcquired (natPool 1) 0 ⟨[], 0⟩ (failBlock Nat)).2 = ⟨[⟨0, some 0⟩], 1⟩ ∧
    (withAcquired (natPool 1) 0 ⟨[], 0⟩ (failBlock Nat)).1 = .error (.blockError ()) :=
  ⟨rfl,
   (acquire_release_bookkeeping (natPool 1) 0 ⟨[], 0⟩ (failBlock Nat) ⟨0, none⟩ ⟨[], 1⟩ rfl).1,
   (acquire_release_bookkeeping (natPool 1) 0 ⟨[], 0⟩ (failBlock Nat) ⟨0, none⟩ ⟨[], 1⟩ rfl).2.1 () rfl⟩

/-- C2: a withdrawn wrapper with timestamp `t` is reused exactly when
`t + timeout > now`: in that case the loop stops and yields it; when
`t + timeout ≤ now` the wrapper is dropped silently (no close call — the
model simply discards it) and the loop continues on the rest of the
queue. -/
theorem fresh_reused_stale_discarded {α : Type} (timeout now t : ℚ)
    (w : Wrapper α) (rest : List (Wrapper α)) (hw : w.last_acquired = some t) :
    (t + timeout > now → acquireLoop timeout now (w :: rest) = .found w rest) ∧
    (t + timeout ≤ now → acquireLoop timeout now (w :: rest) = acquireLoop timeout now rest) := by
  constructor <;> intro h
  · simp [acquireLoop, hw, if_pos h]
  · simp [acquireLoop, hw, if_neg (not_lt.mpr h)]

/-- Witness for C2 at concrete inputs: a fresh wrapper is taken, a stale
one is skipped and the loop moves on. -/
theorem fresh_reused_stale_discarded_witness :
    acquireLoop 1 0 [(⟨3, some 0⟩ : Wrapper Nat)] = .found ⟨3, some 0⟩ [] ∧
    acquireLoop 1 2 [(⟨3, some 0⟩ : Wrapper Nat), ⟨4, some (3/2)⟩] =
      acquireLoop 1 2 [(⟨4, some (3/2)⟩ : Wrapper Nat)] :=
  ⟨(fresh_reused_stale_discarded 1 0 0 ⟨3, some 0⟩ [] rfl).1 (by norm_num),
   (fresh_reused_stale_discarded 1 2 0 ⟨3, some 0⟩ [⟨4, some (3/2)⟩] rfl).2 (by norm_num)⟩

/-- C3 (code bug): `SimpleConnectionPool` carries no ABC metaclass, so
the `abstractmethod` marker on `create` is not enforced: on a directly
instantiated pool, `create()` executes the body `pass` and returns
`None`, and `acquire` on an empty queue silently yields `None` to the
caller instead of raising an "unimplemented" error. -/
theorem base_pool_acquire_yields_none :
    (basePool 300).create 0 = .ok none ∧
    withAcquired (basePool 300) 0 ⟨[], 0⟩ (okBlock (Option Nat)) =
      (.ok none, ⟨[⟨none, some 0⟩], 1⟩) :=
  ⟨rfl, rfl⟩

/-- C4 counterexample: an acquire/release pair whose elapsed idle time
equals `timeout` exactly — so it does not *exceed* `timeout` — still
triggers a new creation: the staleness test is `last + timeout > now`,
so idle time exactly equal to `timeout` already counts as stale. -/
theorem idle_equal_timeout_still_creates :
    (1 : ℚ) - 0 ≤ (natPool 1).timeout ∧
    (runAcquires (natPool 1) [1] ⟨[⟨7, some 0⟩], 1⟩).createCount = 2 := by
  constructor
  · norm_num [natPool]
  · norm_num [runAcquires, withAcquired, acquireWrapper, acquireLoop, natPool, okBlock]

/-- C4 (amended): for every sequence of sequential acquire/release pairs
whose consecutive gaps are all strictly below `timeout`, the pool's sole
idle resource is reused throughout: the connection instance is unchanged
and the count of `create()` invocations does not grow. -/
theorem reuse_when_idle_below_timeout {α : Type} (p : SimpleConnectionPool α)
    (c : α) (t0 : ℚ) (n : Nat) (times : List ℚ)
    (h : List.Chain (fun a b => b < a + p.timeout) t0 times) :
    ∃ t', runAcquires p times ⟨[⟨c, some t0⟩], n⟩ = ⟨[⟨c, some t'⟩], n⟩ := by
  induction times generalizing t0 with
  | nil => exact ⟨t0, rfl⟩
  | cons t1 rest ih =>
    rw [List.chain_cons] at h
    obtain ⟨h1, h2⟩ := h
    have step : (withAcquired p t1 (⟨[⟨c, some t0⟩], n⟩ : PoolState α) (okBlock α)).2
        = ⟨[⟨c, some t1⟩], n⟩ := by
      simp [withAcquired, acquireWrapper, acquireLoop, okBlock, h1]
    have hfold : runAcquires p (t1 :: rest) ⟨[⟨c, some t0⟩], n⟩
        = runAcquires p rest (withAcquired p t1 ⟨[⟨c, some t0⟩], n⟩ (okBlock α)).2 := rfl
    rw [hfold, step]
    exact ih t1 h2

/-- Witness for C4 (amended) at a concrete input: two further
acquisitions with gaps below the timeout keep the same connection and
the same creation count. -/
theorem reuse_when_idle_below_timeout_witness :
    List.Chain (fun a b => b < a + (natPool 1).timeout) 0 [1/2, 5/4] ∧
    ∃ t', runAcquires (natPool 1) [1/2, 5/4] ⟨[⟨7, some 0⟩], 1⟩ = ⟨[⟨7, some t'⟩], 1⟩ :=
  ⟨by norm_num [natPool, List.chain_cons],
   reuse_when_idle_below_timeout (natPool 1) 7 0 1 [1/2, 5/4]
     (by norm_num [natPool, List.chain_cons])⟩

/-- C5 counterexample: a resource idle strictly longer than `timeout` is
discarded, but when a fresh idle resource sits behind it in the queue,
the acquisition reuses that one and `create()` is not invoked at all —
no new resource is created "in its place". -/
theorem stale_discarded_without_creation :
    (2 : ℚ) - 0 > (natPool 1).timeout ∧
    withAcquired (natPool 1) 2 ⟨[⟨5, some 0⟩, ⟨6, some (3/2)⟩], 2⟩ (okBlock Nat) =
      (.ok 6, ⟨[⟨6, some 2⟩], 2⟩) := by
  constructor
  · norm_num [natPool]
  · norm_num [withAcquired, acquireWrapper, acquireLoop, natPool, okBlock]

/-- C5 (amended): a resource idle strictly longer than `timeout` is
discarded by the next acquisition and never handed out again; when it
was the only idle resource, exactly one new resource is created in its
place.  The claim's concrete scenario holds: with `timeout = 1`,
acquire+release at `t = 0` creates once; acquire at `t = 1/2` reuses the
same resource with no new creation; acquire at `t = 3/2` discards it and
invokes `create()` a second time. -/
theorem stale_never_reused {α : Type} (f : Nat → α) (timeout t0 now : ℚ)
    (c : α) (n : Nat) (h : now - t0 > timeout) :
    withAcquired ⟨timeout, fun k => .ok (f k)⟩ now ⟨[⟨c, some t0⟩], n⟩ (okBlock α) =
      (.ok (f n), ⟨[⟨f n, some now⟩], n + 1⟩) ∧
    withAcquired (natPool 1) 0 ⟨[], 0⟩ (okBlock Nat) = (.ok 0, ⟨[⟨0, some 0⟩], 1⟩) ∧
    withAcquired (natPool 1) (1/2) ⟨[⟨0, some 0⟩], 1⟩ (okBlock Nat) =
      (.ok 0, ⟨[⟨0, some (1/2)⟩], 1⟩) ∧
    withAcquired (natPool 1) (3/2) ⟨[⟨0, some (1/2)⟩], 1⟩ (okBlock Nat) =
      (.ok 1, ⟨[⟨1, some (3/2)⟩], 2⟩) := by
  refine ⟨?_, rfl, ?_, ?_⟩
  · have hst : ¬ (t0 + timeout > now) := by push_neg; linarith
    simp [withAcquired, acquireWrapper, acquireLoop, okBlock, hst]
  · norm_num [withAcquired, acquireWrapper, acquireLoop, natPool, okBlock]
  · norm_num [withAcquired, acquireWrapper, acquireLoop, natPool, okBlock]

/-- Witness for C5 (amended) at a concrete input: the only idle resource
sat idle for `2 > 1 = timeout`, so the acquisition at `now = 2` creates
resource `3` and the stale resource `5` is gone from the pool. -/
theorem stale_never_reused_witness :
    (2 : ℚ) - 0 > 1 ∧
    withAcquired ⟨1, fun k => .ok k⟩ 2 ⟨[⟨5, some 0⟩], 3⟩ (okBlock Nat) =
      (.ok 3, ⟨[⟨3, some 2⟩], 4⟩) :=
  ⟨by norm_num, (stale_never_reused (fun k => k) 1 0 2 5 3 (by norm_num)).1⟩

/-- C6: the idle container is FIFO.  The wrapper at the front of the
queue is tried first and, when fresh, is chosen no matter what sits
behind it (regardless of ages or timestamps); any wrapper handed out by
`acquire` from a non-empty drain is withdrawn in insertion order (a
prefix of stale wrappers is dropped, the rest keeps its order); and the
released wrapper is pushed to the back of the queue. -/
theorem fifo_front_first_push_back {α ε β : Type} (p : SimpleConnectionPool α)
    (now t1 : ℚ) (w1 : Wrapper α) (rest : List (Wrapper α))
    (st : PoolState α) (block : α → Except ε β) (w : Wrapper α) (st1 : PoolState α)
    (hw : w1.last_acquired = some t1) (hfresh : t1 + p.timeout > now)
    (hok : acquireWrapper p now st = .ok w st1) :
    acquireLoop p.timeout now (w1 :: rest) = .found w1 rest ∧
    (w :: st1.queue <:+ st.queue ∨ st1.queue = []) ∧
    (withAcquired p now st block).2.queue = st1.queue ++ [⟨w.conn, some now⟩] := by
  refine ⟨by simp [acquireLoop, hw, if_pos hfresh], ?_, ?_⟩
  · unfold acquireWrapper at hok
    cases hl : acquireLoop p.timeout now st.queue with
    | found w' rest' =>
      rw [hl] at hok
      obtain ⟨rfl, rfl⟩ := AcquireStart.ok.inj hok
      exact Or.inl (acquireLoop_found_suffix p.timeout now st.queue rest' w' hl)
    | keyError rest' => rw [hl] at hok; exact AcquireStart.noConfusion hok
    | empty =>
      rw [hl] at hok
      cases hc : p.create st.createCount with
      | ok c =>
        rw [hc] at hok
        obtain ⟨rfl, rfl⟩ := AcquireStart.ok.inj hok
        exact Or.inr rfl
      | error msg => rw [hc] at hok; exact AcquireStart.noConfusion hok
  · unfold withAcquired
    rw [hok]
    cases hb : block w.conn <;> simp [hb]

/-- Witness for C6 at a concrete input: the front wrapper (older
timestamp `10`) is chosen even though the one behind it (timestamp `11`)
is younger, and the released wrapper lands at the back. -/
theorem fifo_front_first_push_back_witness :
    acquireLoop (natPool 2).timeout 11 [(⟨5, some 10⟩ : Wrapper Nat), ⟨6, some 11⟩] =
      .found ⟨5, some 10⟩ [⟨6, some 11⟩] ∧
    ((⟨5, some 10⟩ : Wrapper Nat) :: [⟨6, some 11⟩] <:+ [⟨5, some 10⟩, ⟨6, some 11⟩] ∨
      ([⟨6, some 11⟩] : List (Wrapper Nat)) = []) ∧
    (withAcquired (natPool 2) 11 ⟨[⟨5, some 10⟩, ⟨6, some 11⟩], 0⟩ (okBlock Nat)).2.queue =
      [⟨6, some 11⟩] ++ [⟨5, some 11⟩] :=
  fifo_front_first_push_back (natPool 2) 11 10 ⟨5, some 10⟩ [⟨6, some 11⟩]
    ⟨[⟨5, some 10⟩, ⟨6, some 11⟩], 0⟩ (okBlock Nat) ⟨5, some 10⟩ ⟨[⟨6, some 11⟩], 0⟩
    rfl (by norm_num [natPool])
    (by norm_num [acquireWrapper, acquireLoop, natPool])

/-- C7: when the drain exhausts the idle container and `create()`
raises, the error propagates to the `acquire` caller unchanged — not
caught, wrapped in a block error, retried, or swallowed — and the idle
container gains no entry from the failed acquisition: the queue is left
empty and nothing is pushed. -/
theorem create_error_propagates {α ε β : Type} (p : SimpleConnectionPool α)
    (now : ℚ) (st : PoolState α) (block : α → Except ε β) (msg : String)
    (hq : acquireLoop p.timeout now st.queue = .empty)
    (hc : p.create st.createCount = .error msg) :
    withAcquired p now st block = (.error (.createError msg), ⟨[], st.createCount + 1⟩) := by
  unfold withAcquired acquireWrapper
  rw [hq, hc]

/-- Witness for C7 at a concrete input: a pool whose factory raises
`"boom"`, drained past one stale wrapper; the same `"boom"` error
surfaces and the queue is empty. -/
theorem create_error_propagates_witness :
    acquireLoop (failPool 1).timeout 5 [(⟨3, some 0⟩ : Wrapper Nat)] = .empty ∧
    (failPool 1).create 0 = .error "boom" ∧
    withAcquired (failPool 1) 5 ⟨[⟨3, some 0⟩], 0⟩ (okBlock Nat) =
      (.error (.createError "boom"), ⟨[], 1⟩) :=
  ⟨by norm_num [acquireLoop, failPool], rfl,
   create_error_propagates (failPool 1) 5 ⟨[⟨3, some 0⟩], 0⟩ (okBlock Nat) "boom"
     (by norm_num [acquireLoop, failPool]) rfl⟩

/-- C8: exclusive ownership.  If the idle queue holds no duplicate
connection, then whenever `acquire` hands a wrapper to a caller, that
connection is absent from the idle queue for the whole borrow, and the
queue after the release bookkeeping again holds no duplicate connection
— so every operation preserves the invariant that each connection is
held by the pool once, or by exactly one borrower. -/
theorem exclusive_ownership {α ε β : Type} (p : SimpleConnectionPool α)
    (now : ℚ) (st : PoolState α) (block : α → Except ε β) (w : Wrapper α)
    (st1 : PoolState α) (hnd : (st.queue.map Wrapper.conn).Nodup)
    (hok : acquireWrapper p now st = .ok w st1) :
    w.conn ∉ st1.queue.map Wrapper.conn ∧
    ((withAcquired p now st block).2.queue.map Wrapper.conn).Nodup := by
  have hpost : (withAcquired p now st block).2.queue =
      st1.queue ++ [⟨w.conn, some now⟩] := by
    unfold withAcquired
    rw [hok]
    cases hb : block w.conn <;> simp [hb]
  unfold acquireWrapper at hok
  cases hl : acquireLoop p.timeout now st.queue with
  | found w' rest =>
    rw [hl] at hok
    obtain ⟨rfl, rfl⟩ := AcquireStart.ok.inj hok
    have hsub := acquireLoop_found_suffix p.timeout now st.queue rest w' hl
    have hnd2 : ((w' :: rest).map Wrapper.conn).Nodup :=
      hnd.sublist (hsub.sublist.map Wrapper.conn)
    rw [List.map_cons, List.nodup_cons] at hnd2
    refine ⟨hnd2.1, ?_⟩
    rw [hpost, List.map_append]
    rw [List.nodup_append_comm]
    simpa using List.nodup_cons.mpr hnd2
  | keyError rest => rw [hl] at hok; exact AcquireStart.noConfusion hok
  | empty =>
    rw [hl] at hok
    cases hc : p.create st.createCount with
    | ok c =>
      rw [hc] at hok
      obtain ⟨rfl, rfl⟩ := AcquireStart.ok.inj hok
      refine ⟨by simp, ?_⟩
      rw [hpost]
      simp
    | error msg => rw [hc] at hok; exact AcquireStart.noConfusion hok

/-- Witness for C8 at a concrete input: a two-element duplicate-free
queue; the borrowed connection `5` is absent from the idle queue, and
the post-release queue is duplicate-free. -/
theorem exclusive_ownership_witness :
    ([(⟨5, some 10⟩ : Wrapper Nat), ⟨6, some 11⟩].map Wrapper.conn).Nodup ∧
    (5 ∉ ([(⟨6, some 11⟩ : Wrapper Nat)].map Wrapper.conn) ∧
      ((withAcquired (natPool 2) 11 ⟨[⟨5, some 10⟩, ⟨6, some 11⟩], 0⟩
        (okBlock Nat)).2.queue.map Wrapper.conn).Nodup) :=
  ⟨by decide,
   exclusive_ownership (natPool 2) 11 ⟨[⟨5, some 10⟩, ⟨6, some 11⟩], 0⟩ (okBlock Nat)
     ⟨5, some 10⟩ ⟨[⟨6, some 11⟩], 0⟩ (by decide)
     (by norm_num [acquireWrapper, acquireLoop, natPool])⟩

/-- C9: stamping with the acquisition-start time means a long borrow
ages the resource while it is in use.  If a borrow starting at `now1`
from a fresh single-resource pool is released at `tr` with
`tr - now1 > timeout`, then at any later acquisition time `now2 ≥ tr`
the returned wrapper (stamped `now1`) is already stale and the drain
discards it — however small `now2 - tr`, the idle-since-release time,
is. -/
theorem held_past_timeout_discarded {α ε β : Type} (p : SimpleConnectionPool α)
    (c : α) (t0 now1 tr now2 : ℚ) (n : Nat) (block : α → Except ε β)
    (hfresh : t0 + p.timeout > now1)
    (hheld : tr - now1 > p.timeout)
    (hnext : now2 ≥ tr) :
    (withAcquired p now1 ⟨[⟨c, some t0⟩], n⟩ block).2 = ⟨[⟨c, some now1⟩], n⟩ ∧
    acquireLoop p.timeout now2 [⟨c, some now1⟩] = .empty := by
  constructor
  · have hok : acquireWrapper p now1 ⟨[⟨c, some t0⟩], n⟩ = .ok ⟨c, some t0⟩ ⟨[], n⟩ := by
      simp [acquireWrapper, acquireLoop, if_pos hfresh]
    unfold withAcquired
    rw [hok]
    cases hb : block (Wrapper.conn ⟨c, some t0⟩) <;> simp [hb]
  · have hstale : ¬ (now1 + p.timeout > now2) := by push_neg; linarith
    simp [acquireLoop, if_neg hstale]

/-- Witness for C9 at a concrete input: borrow at `now1 = 1/2`, hold
until `tr = 2` (held `3/2 > 1 = timeout`), next acquisition at
`now2 = 2`: the wrapper comes back stamped `1/2` and the drain at `2`
finds it stale. -/
theorem held_past_timeout_discarded_witness :
    (0 : ℚ) + (natPool 1).timeout > 1/2 ∧
    (withAcquired (natPool 1) (1/2) ⟨[⟨7, some 0⟩], 1⟩ (okBlock Nat)).2 =
      ⟨[⟨7, some (1/2)⟩], 1⟩ ∧
    acquireLoop (natPool 1).timeout 2 [(⟨7, some (1/2)⟩ : Wrapper Nat)] = .empty :=
  ⟨by norm_num [natPool],
   (held_past_timeout_discarded (natPool 1) 7 0 (1/2) 2 2 1 (okBlock Nat)
     (by norm_num [natPool]) (by norm_num [natPool]) (by norm_num)).1,
   (held_past_timeout_discarded (natPool 1) 7 0 (1/2) 2 2 1 (okBlock Nat)
     (by norm_num [natPool]) (by norm_num [natPool]) (by norm_num)).2⟩

/-- C10: if every wrapper in the idle queue carries a `'last_acquired'`
timestamp, then the drain's field lookup never raises `KeyError`, a
scoped acquisition never surfaces that error, and the queue after the
release bookkeeping is again fully stamped — wrappers enter the queue
only through the release path, which stamps them first, so the
missing-field branch is unreachable. -/
theorem stamped_invariant {α ε β : Type} (p : SimpleConnectionPool α) (now : ℚ)
    (st : PoolState α) (block : α → Except ε β) (hs : allStamped st.queue) :
    (∀ rest, acquireLoop p.timeout now st.queue ≠ .keyError rest) ∧
    (withAcquired p now st block).1 ≠ .error .keyError ∧
    allStamped (withAcquired p now st block).2.queue := by
  have hnk := acquireLoop_no_keyError p.timeout now st.queue hs
  refine ⟨hnk, ?_, ?_⟩
  · unfold withAcquired acquireWrapper
    cases hl : acquireLoop p.timeout now st.queue with
    | found w rest =>
      cases hb : block w.conn <;> simp [hb]
    | keyError rest => exact absurd hl (hnk rest)
    | empty =>
      cases hc : p.create st.createCount with
      | ok c => cases hb : block c <;> simp [hb]
      | error msg => simp
  · unfold withAcquired acquireWrapper
    cases hl : acquireLoop p.timeout now st.queue with
    | found w rest =>
      have hrest : allStamped rest :=
        allStamped_suffix ((List.suffix_cons w rest).trans
          (acquireLoop_found_suffix p.timeout now st.queue rest w hl)) hs
      cases hb : block w.conn <;>
        · simp only [hb]
          intro w' hw'
          rcases List.mem_append.mp hw' with h1 | h2
          · exact hrest w' h1
          · rw [List.mem_singleton.mp h2]; simp
    | keyError rest => exact absurd hl (hnk rest)
    | empty =>
      cases hc : p.create st.createCount with
      | ok c =>
        cases hb : block c <;>
          · simp only [hb]
            intro w' hw'
            rcases List.mem_append.mp hw' with h1 | h2
            · exact absurd h1 (List.not_mem_nil _)
            · rw [List.mem_singleton.mp h2]; simp
      | error msg => simp [allStamped]

/-- Witness for C10 at a concrete input: a fully stamped two-element
queue with one stale entry; no `KeyError` arises and the post-release
queue is fully stamped. -/
theorem stamped_invariant_witness :
    allStamped [(⟨5, some 0⟩ : Wrapper Nat), ⟨6, some 10⟩] ∧
    ((∀ rest, acquireLoop (natPool 2).timeout 11
        [(⟨5, some 0⟩ : Wrapper Nat), ⟨6, some 10⟩] ≠ .keyError rest) ∧
      (withAcquired (natPool 2) 11 ⟨[⟨5, some 0⟩, ⟨6, some 10⟩], 0⟩ (okBlock Nat)).1 ≠
        .error .keyError ∧
      allStamped (withAcquired (natPool 2) 11 ⟨[⟨5, some 0⟩, ⟨6, some 10⟩], 0⟩
        (okBlock Nat)).2.queue) :=
  ⟨by decide,
   stamped_invariant (natPool 2) 11 ⟨[⟨5, some 0⟩, ⟨6, some 10⟩], 0⟩ (okBlock Nat)
     (by decide)⟩
